import Mathlib

/-!
Shallow embedding of the merge-session engine of `src/App.tsx` (a React
Native PDF-merge app), and proofs checking the specification's claims
against it.

Modelling conventions:
* JS strings that the engine manipulates character-by-character
  (display names, the output-name field, base64 text) are `List Char`.
* Ids are Lean `String`s, built exactly as the source builds them.
* Byte buffers (`Uint8Array`) are `List Nat` with every element `< 256`.
* A parsed PDF document is its list of pages; a page is an opaque value
  of a type parameter `α` (the engine copies pages verbatim and never
  inspects them).
* Asynchronous IO (file reads, alerts) is modelled by passing the values
  the IO would produce (document contents, load outcomes) as explicit
  arguments; a thrown JS exception becomes an `Except.error` /
  an explicit error component.
-/

/-- One loaded PDF in the session list (source: `type PdfItem`). -/
structure PdfItem where
  id : String
  name : List Char
  uri : String
  pages : Nat
deriving DecidableEq, Repr

/-- Source: `const MAX_TOTAL_PAGES = 150`. -/
def MAX_TOTAL_PAGES : Nat := 150

/-- Source: `const totalPages = useMemo(() => data.reduce((sum, p) => sum + p.pages, 0), [data])`. -/
def totalPages (data : List PdfItem) : Nat :=
  data.foldl (fun sum p => sum + p.pages) 0

/-- Source: the `onPress` of the delete confirmation in `removePdf`:
`setData(prev => prev.filter(p => p.id !== id))`. -/
def removePdf (prev : List PdfItem) (id : String) : List PdfItem :=
  prev.filter (fun p => p.id ≠ id)

/-- Characters the JS `String.prototype.trim` removes, restricted to the
ASCII range (the engine only ever meets ASCII whitespace). -/
def isJsSpace (c : Char) : Bool :=
  c = ' ' || c = '\t' || c = '\n' || c = '\r' || c = '\x0b' || c = '\x0c'

/-- JS `s.trim()`: strip leading and trailing whitespace. -/
def jsTrim (s : List Char) : List Char :=
  ((s.dropWhile isJsSpace).reverse.dropWhile isJsSpace).reverse

/-- The effect of the regex replace `name.replace(/\.pdf$/i, '')`: if the
last four characters are `.pdf` case-insensitively, drop them, else leave
the name unchanged (`$` anchors the match to the end of the string, so at
most the 4-character suffix can match). -/
def replacePdfSuffix (name : List Char) : List Char :=
  if (name.map Char.toLower).drop (name.length - 4) = ".pdf".toList then
    name.take (name.length - 4)
  else name

/-- Source: `getDefaultMergedName`:
`if (data.length === 0) return 'merged.pdf';
 const base = data[0].name.replace(/\.pdf$/i, '');
 return base + '_merged.pdf';`. -/
def getDefaultMergedName : List PdfItem → List Char
  | [] => "merged.pdf".toList
  | x :: _ => replacePdfSuffix x.name ++ "_merged.pdf".toList

/-- Source: the `onDragEnd` prop of the list view:
`onDragEnd={({ data }) => setData(data)}` — the session list is replaced
by whatever list the drag gesture produced; the previous list is not
consulted and no validation is performed. -/
def onDragEnd (prev next : List PdfItem) : List PdfItem := next

/-- The two rejection alerts `onPressMerge` can show before any assembly. -/
inductive MergeViolation where
  | TooFewItems : MergeViolation
  | PageLimitExceeded (actual : Nat) (limit : Nat) : MergeViolation
deriving DecidableEq, Repr

/-- The immutable data the confirm dialog (and assembly) receives once the
gate passes: the chosen output file name and the item snapshot. -/
structure MergeRequest where
  finalName : List Char
  items : List PdfItem
deriving DecidableEq, Repr

/-- Source: `onPressMerge`: reject with the first-failing rule alert
(`data.length < 2` → too-few alert; `totalPages > MAX_TOTAL_PAGES` →
limit alert quoting the actual total and the limit), otherwise compute
`finalName = fileName.trim() !== '' ? fileName : getDefaultMergedName()`
and proceed to the confirm dialog that triggers `buildMergedPdf`.
An `Except.error` is a rejection: no `MergeRequest` exists, so no
assembly can start. -/
def onPressMerge (data : List PdfItem) (fileName : List Char) :
    Except MergeViolation MergeRequest :=
  if data.length < 2 then
    .error .TooFewItems
  else if totalPages data > MAX_TOTAL_PAGES then
    .error (.PageLimitExceeded (totalPages data) MAX_TOTAL_PAGES)
  else
    .ok { finalName := if jsTrim fileName ≠ [] then fileName
                       else getDefaultMergedName data
          items := data }

/-! ### Byte codec (source lines 28-32)

The source imports `Buffer` from the npm `buffer` package (the polyfill a
React Native bundle uses; there is no Node built-in):
`base64ToUint8Array = (base64) => Uint8Array.from(Buffer.from(base64, 'base64'))`
`uint8ArrayToBase64 = (bytes) => Buffer.from(bytes).toString('base64')`.
`Buffer.toString('base64')` is `base64-js.fromByteArray`: RFC 4648 base64
with `=` padding. `Buffer.from(_, 'base64')` runs `base64clean` and then
`base64-js.toByteArray`:
* `base64clean` truncates the input at the first `=`
  (`str.split('=')[0]`), strips every character outside
  `[+/0-9A-Za-z-_]` (trim plus `INVALID_BASE64_RE`), returns the empty
  string when fewer than 2 characters survive, and pads with `=` to a
  multiple of four;
* `toByteArray` looks each character up in `revLookup` — the 64-character
  alphabet plus the URL-safe `-` → 62 and `_` → 63 — and packs the
  sextets four at a time into three bytes, a final padded group yielding
  only the bytes its bits fully determine.
It never throws. The definitions below embed exactly that pipeline; the
fewer-than-2-characters early return needs no separate case because a
lone surviving sextet already yields no byte in `b64DecodeSextets`. -/

/-- The base64 alphabet in index order. -/
def b64Alphabet : List Char :=
  "ABCDEFGHIJKLMNOPQRSTUVWXYZabcdefghijklmnopqrstuvwxyz0123456789+/".toList

/-- The character for a sextet value. -/
def b64Char (n : Nat) : Char := b64Alphabet.getD n '?'

/-- `base64-js`'s `revLookup` restricted to the characters `base64clean`
keeps: the sextet value of an alphabet character, with the URL-safe `-`
and `_` accepted as 62 and 63; `none` exactly for the characters
`INVALID_BASE64_RE` strips. -/
def b64RevLookup (c : Char) : Option Nat :=
  if c = '-' then some 62
  else if c = '_' then some 63
  else b64Alphabet.indexOf? c

/-- Pack bytes three at a time into sextet characters, padding the final
partial group with `=` as `Buffer.toString('base64')` does. -/
def b64EncodeBytes : List Nat → List Char
  | b1 :: b2 :: b3 :: rest =>
      b64Char (b1 / 4) ::
      b64Char (b1 % 4 * 16 + b2 / 16) ::
      b64Char (b2 % 16 * 4 + b3 / 64) ::
      b64Char (b3 % 64) ::
      b64EncodeBytes rest
  | [b1, b2] =>
      [b64Char (b1 / 4), b64Char (b1 % 4 * 16 + b2 / 16),
       b64Char (b2 % 16 * 4), '=']
  | [b1] =>
      [b64Char (b1 / 4), b64Char (b1 % 4 * 16), '=', '=']
  | [] => []

/-- Unpack sextet values four at a time into bytes; a trailing partial
group contributes only the bytes whose eight bits are fully present. -/
def b64DecodeSextets : List Nat → List Nat
  | a :: b :: c :: d :: rest =>
      (a * 4 + b / 16) :: (b % 16 * 16 + c / 4) :: (c % 4 * 64 + d) ::
      b64DecodeSextets rest
  | [a, b, c] => [a * 4 + b / 16, b % 16 * 16 + c / 4]
  | [a, b] => [a * 4 + b / 16]
  | [_] => []
  | [] => []

/-- Source: `uint8ArrayToBase64` via `Buffer.toString('base64')`. -/
def uint8ArrayToBase64 (bytes : List Nat) : List Char :=
  b64EncodeBytes bytes

/-- Source: `base64ToUint8Array` via the polyfill's
`Buffer.from(base64, 'base64')`: truncate at the first `=`
(`base64clean`'s `split('=')[0]`), drop the characters
`INVALID_BASE64_RE` strips, then pack the sextets
(`base64-js.toByteArray` after `=`-padding, which `b64DecodeSextets`
reproduces group for group). -/
def base64ToUint8Array (base64 : List Char) : List Nat :=
  b64DecodeSextets
    ((base64.takeWhile (fun c => c ≠ '=')).filterMap b64RevLookup)

/-! ### Batch loading (source `pickPdf`, lines 77-117)

`pickPdf` walks the picker result inside one `try`: for each asset it
reads and decodes the bytes, parses them with `PDFDocument.load`, and
pushes a `PdfItem` whose id is `` `${Date.now()}-${i}` ``; only after the
whole loop does `setData(prev => [...prev, ...items])` run. Any thrown
error jumps to the `catch`, which alerts the error's message and leaves
the state untouched. The IO outcomes are passed in: each asset carries
the `displayName` the picker reported (`file.name`, possibly absent), its
normalized uri, and what loading it produced — a page count, or the
thrown error's message. -/

/-- One entry of `result.assets` together with the outcome its read +
decode + `PDFDocument.load` would produce. -/
structure AssetLoad where
  name : Option (List Char)
  uri : String
  result : Except String Nat
deriving Repr

/-- Source: `` id: `${Date.now()}-${i}` `` with `now = Date.now()` at the
moment item `i` of the batch is pushed. -/
def mkItemId (now i : Nat) : String := toString now ++ "-" ++ toString i

/-- The `PdfItem` pushed for asset `a` at batch position `i`
(`name: file.name ?? 'unknown.pdf'`, `uri: safeUri`, `pages` from the
parsed document). -/
def mkItem (now i : Nat) (a : AssetLoad) (pages : Nat) : PdfItem :=
  { id := mkItemId now i
    name := a.name.getD "unknown.pdf".toList
    uri := a.uri
    pages := pages }

/-- The loop body of `pickPdf`: build the `items` array, aborting with the
first thrown error. `i` is the loop index. -/
def pickPdfLoop (now : Nat) (i : Nat) :
    List AssetLoad → Except String (List PdfItem)
  | [] => .ok []
  | a :: rest =>
      match a.result with
      | .error e => .error e
      | .ok pages =>
          (pickPdfLoop now (i + 1) rest).map
            (fun items => mkItem now i a pages :: items)

/-- Source: `pickPdf` after a non-cancelled pick: on success the batch is
appended to the session (`setData(prev => [...prev, ...items])`) and no
error is alerted; on a thrown error the session is left as it was and the
error's message is alerted. -/
def pickPdf (now : Nat) (prev : List PdfItem) (assets : List AssetLoad) :
    List PdfItem × Option String :=
  match pickPdfLoop now 0 assets with
  | .error e => (prev, some e)
  | .ok items => (prev ++ items, none)

/-! ### Merge assembly (source `buildMergedPdf`, lines 139-178)

For each session item in order, the source re-reads `item.uri`, decodes,
re-parses, and copies every page index of that document
(`mergedPdf.copyPages(pdf, pdf.getPageIndices())`) into the output,
appending each copied page (`pages.forEach(p => mergedPdf.addPage(p))`).
The file-system read is modelled by `loadDoc : String → List α`, giving
the page list parsing the bytes at a uri would yield. -/

/-- `pdf.getPageIndices()`: `[0, 1, ..., pageCount - 1]`. -/
def getPageIndices {α : Type} (doc : List α) : List Nat :=
  List.range doc.length

/-- `mergedPdf.copyPages(pdf, indices)`: the pages of `pdf` at `indices`,
in that order (copying preserves a page's content, so a copied page is
modelled as the page itself). -/
def copyPages {α : Type} (doc : List α) (indices : List Nat) : List α :=
  indices.filterMap (fun i => doc.get? i)

/-- Source: the page-accumulation loop of `buildMergedPdf` (the
serialization, cache write, and uri return that follow do not touch the
page sequence). -/
def buildMergedPdf {α : Type} (loadDoc : String → List α)
    (data : List PdfItem) : List α :=
  data.foldl
    (fun mergedPdf item =>
      mergedPdf ++ copyPages (loadDoc item.uri) (getPageIndices (loadDoc item.uri)))
    []

/-! ### Helper lemmas and sample data -/

theorem foldl_pages (data : List PdfItem) (n : Nat) :
    data.foldl (fun sum p => sum + p.pages) n = n + (data.map (fun p => p.pages)).sum := by
  induction data generalizing n with
  | nil => simp
  | cons x xs ih => simp only [List.foldl_cons, List.map_cons, List.sum_cons, ih]; omega

theorem totalPages_eq_sum (data : List PdfItem) :
    totalPages data = (data.map (fun p => p.pages)).sum := by
  unfold totalPages
  rw [foldl_pages]
  omega

theorem suffix_iff_drop_eq {t l : List Char} :
    t <:+ l ↔ l.drop (l.length - t.length) = t := by
  constructor
  · rintro ⟨s, rfl⟩
    rw [List.length_append, Nat.add_sub_cancel, List.drop_left]
  · intro h
    have ht := List.take_append_drop (l.length - t.length) l
    rw [h] at ht
    exact ⟨l.take (l.length - t.length), ht⟩

/-- A sample loaded item (10 pages). -/
def itemA : PdfItem :=
  { id := "10-0", name := "Report.pdf".toList, uri := "a", pages := 10 }

/-- A sample loaded item (5 pages). -/
def itemB : PdfItem :=
  { id := "10-1", name := "notes.pdf".toList, uri := "b", pages := 5 }

/-- A sample item bringing a two-item session to exactly 150 pages. -/
def itemC : PdfItem :=
  { id := "10-2", name := "c.pdf".toList, uri := "c", pages := 140 }

/-- A sample item bringing a two-item session to 151 pages. -/
def itemD : PdfItem :=
  { id := "10-3", name := "d.pdf".toList, uri := "d", pages := 141 }

/-! ### Claims about the session model and the gate -/

/-- Claim C6: the derived total always equals the sum of `pageCount` over
the items: the empty session totals 0, `totalPages` is the sum of the
items' `pages`, appending an item of `pageCount` 5 to a session totaling
10 yields 15, and removing the appended item (its id being fresh) returns
the total to the previous value. -/
theorem C6_totalPages_correct (data : List PdfItem) (x : PdfItem)
    (hfresh : x.id ∉ data.map (fun p => p.id)) :
    totalPages ([] : List PdfItem) = 0 ∧
    totalPages data = (data.map (fun p => p.pages)).sum ∧
    totalPages (data ++ [x]) = totalPages data + x.pages ∧
    removePdf (data ++ [x]) x.id = data ∧
    totalPages (removePdf (data ++ [x]) x.id) = totalPages data := by
  have hrem : removePdf (data ++ [x]) x.id = data := by
    unfold removePdf
    rw [List.filter_append]
    have h1 : data.filter (fun p => p.id ≠ x.id) = data := by
      apply List.filter_eq_self.mpr
      intro a ha
      simp only [ne_eq, decide_eq_true_eq]
      intro he
      exact hfresh (he ▸ List.mem_map_of_mem (fun p => p.id) ha)
    have h2 : List.filter (fun p => p.id ≠ x.id) [x] = [] := by simp
    rw [h1, h2, List.append_nil]
  refine ⟨rfl, totalPages_eq_sum data, ?_, hrem, ?_⟩
  · rw [totalPages_eq_sum, totalPages_eq_sum, List.map_append, List.sum_append]
    simp
  · rw [hrem]

theorem C6_witness :
    totalPages ([itemA] ++ [itemB]) = totalPages [itemA] + itemB.pages ∧
    totalPages (removePdf ([itemA] ++ [itemB]) itemB.id) = totalPages [itemA] :=
  ⟨(C6_totalPages_correct [itemA] itemB (by decide)).2.2.1,
   (C6_totalPages_correct [itemA] itemB (by decide)).2.2.2.2⟩

/-- Claim C7: the default output name is `merged.pdf` for the empty
session; otherwise it is the first item's display name with a trailing
case-insensitive `.pdf` suffix stripped, followed by `_merged.pdf`
(`Report.pdf` → `Report_merged.pdf`, `report.PDF` → `report_merged.pdf`). -/
theorem C7_default_output_name (x : PdfItem) (xs : List PdfItem) :
    getDefaultMergedName [] = "merged.pdf".toList ∧
    (".pdf".toList <:+ x.name.map Char.toLower →
      getDefaultMergedName (x :: xs) =
        x.name.take (x.name.length - 4) ++ "_merged.pdf".toList) ∧
    (¬ (".pdf".toList <:+ x.name.map Char.toLower) →
      getDefaultMergedName (x :: xs) = x.name ++ "_merged.pdf".toList) ∧
    getDefaultMergedName [itemA] = "Report_merged.pdf".toList ∧
    getDefaultMergedName [{ itemA with name := "report.PDF".toList }] =
      "report_merged.pdf".toList := by
  refine ⟨rfl, ?_, ?_, by decide, by decide⟩
  · intro hs
    have hd := suffix_iff_drop_eq.mp hs
    rw [List.length_map] at hd
    have hd4 : (x.name.map Char.toLower).drop (x.name.length - 4) = ".pdf".toList := hd
    show replacePdfSuffix x.name ++ "_merged.pdf".toList = _
    unfold replacePdfSuffix
    rw [if_pos hd4]
  · intro hs
    have hd : ¬ ((x.name.map Char.toLower).drop (x.name.length - 4) = ".pdf".toList) := by
      intro hd
      apply hs
      apply suffix_iff_drop_eq.mpr
      rw [List.length_map]
      exact hd
    show replacePdfSuffix x.name ++ "_merged.pdf".toList = _
    unfold replacePdfSuffix
    rw [if_neg hd]

theorem C7_witness :
    getDefaultMergedName [itemA] =
      itemA.name.take (itemA.name.length - 4) ++ "_merged.pdf".toList :=
  (C7_default_output_name itemA []).2.1 (suffix_iff_drop_eq.mpr (by decide))

/-- Claim C5: the merge gate rejects a session of fewer than 2 items with
the too-few-items violation regardless of page count; rejects a session
of at least 2 items whose total strictly exceeds `MAX_TOTAL_PAGES` with a
`PageLimitExceeded` violation carrying the actual total and the limit;
accepts a session of at least 2 items totaling exactly the limit; and a
rejected commit produces no `MergeRequest`, so no assembly starts. -/
theorem C5_merge_gate (data : List PdfItem) (fileName : List Char) :
    (data.length < 2 → onPressMerge data fileName = .error .TooFewItems) ∧
    (2 ≤ data.length → MAX_TOTAL_PAGES < totalPages data →
      onPressMerge data fileName =
        .error (.PageLimitExceeded (totalPages data) MAX_TOTAL_PAGES)) ∧
    (2 ≤ data.length → totalPages data = MAX_TOTAL_PAGES →
      ∃ r : MergeRequest, onPressMerge data fileName = .ok r ∧ r.items = data) ∧
    ((data.length < 2 ∨ MAX_TOTAL_PAGES < totalPages data) →
      ∀ r : MergeRequest, ¬ onPressMerge data fileName = .ok r) := by
  unfold onPressMerge
  refine ⟨?_, ?_, ?_, ?_⟩
  · intro h
    rw [if_pos h]
  · intro h1 h2
    rw [if_neg (by omega), if_pos h2]
  · intro h1 h2
    rw [if_neg (by omega), if_neg (by omega)]
    exact ⟨_, rfl, rfl⟩
  · intro h r
    rcases h with h | h
    · rw [if_pos h]
      exact fun hc => by simp at hc
    · by_cases hl : data.length < 2
      · rw [if_pos hl]
        exact fun hc => by simp at hc
      · rw [if_neg hl, if_pos h]
        exact fun hc => by simp at hc

theorem C5_witness :
    onPressMerge [itemA] [] = .error .TooFewItems ∧
    onPressMerge [itemA, itemD] [] = .error (.PageLimitExceeded 151 150) ∧
    (∃ r : MergeRequest, onPressMerge [itemA, itemC] [] = .ok r ∧
      r.items = [itemA, itemC]) :=
  ⟨(C5_merge_gate [itemA] []).1 (by decide),
   (C5_merge_gate [itemA, itemD] []).2.1 (by decide) (by decide),
   (C5_merge_gate [itemA, itemC] []).2.2.1 (by decide) (by decide)⟩

/-- Claim C10: when the output-name field is blank or whitespace-only the
merge runs under the session's default derived name; any name whose
trimmed form is non-empty is used verbatim, untrimmed. -/
theorem C10_blank_name_defaults (data : List PdfItem) (fileName : List Char)
    (hlen : 2 ≤ data.length) (hpages : totalPages data ≤ MAX_TOTAL_PAGES) :
    (jsTrim fileName = [] →
      onPressMerge data fileName = .ok ⟨getDefaultMergedName data, data⟩) ∧
    (jsTrim fileName ≠ [] →
      onPressMerge data fileName = .ok ⟨fileName, data⟩) := by
  unfold onPressMerge
  rw [if_neg (by omega), if_neg (by omega)]
  constructor
  · intro h
    rw [if_neg (by simp [h])]
  · intro h
    rw [if_pos h]

theorem C10_witness :
    onPressMerge [itemA, itemB] "  ".toList =
      .ok ⟨getDefaultMergedName [itemA, itemB], [itemA, itemB]⟩ ∧
    onPressMerge [itemA, itemB] " x ".toList = .ok ⟨" x ".toList, [itemA, itemB]⟩ :=
  ⟨(C10_blank_name_defaults [itemA, itemB] "  ".toList (by decide) (by decide)).1
      (by decide),
   (C10_blank_name_defaults [itemA, itemB] " x ".toList (by decide) (by decide)).2
      (by decide)⟩

/-- Claim C8 counterexample: passing the drag handler a list that is not a
permutation of the current id set (here `[itemB]` against a session
`[itemA]`: `itemA.id` missing, `itemB.id` foreign) does not fail with any
`InvalidPermutationError` — the handler has no failure path and simply
installs the new list. -/
theorem C8_counterexample :
    itemB.id ∉ [itemA].map (fun p => p.id) ∧
    itemA.id ∉ [itemB].map (fun p => p.id) ∧
    onDragEnd [itemA] [itemB] = [itemB] :=
  ⟨by decide, by decide, rfl⟩

/-- Claim C8 (amended): the reorder handler replaces the item list with
its argument unconditionally and performs no permutation validation (it
cannot fail); when the argument happens to be a permutation of the
current items, the list reads in exactly the given order and every
resulting item — with its `pageCount` — is one of the existing items. -/
theorem C8_reorder_unvalidated (prev next : List PdfItem) :
    onDragEnd prev next = next ∧
    (next.Perm prev → ∀ x ∈ onDragEnd prev next, x ∈ prev) :=
  ⟨rfl, fun hp x hx => hp.mem_iff.mp hx⟩

theorem C8_witness :
    onDragEnd [itemA, itemB] [itemB, itemA] = [itemB, itemA] ∧
    itemA ∈ [itemA, itemB] :=
  ⟨(C8_reorder_unvalidated [itemA, itemB] [itemB, itemA]).1,
   (C8_reorder_unvalidated [itemA, itemB] [itemB, itemA]).2 (by decide) itemA
      (by decide)⟩

/-- The load outcome of one well-formed single-page asset. -/
def assetU : AssetLoad :=
  { name := some "a.pdf".toList, uri := "u", result := .ok 1 }

/-- Claim C4 (code bug): item ids are `` `${Date.now()}-${i}` ``, so two
single-item batches whose loops run in the same millisecond (`Date.now()`
returning the same value, here 7) both produce the id `"7-0"` — the
session then holds two items with equal ids, violating the uniqueness the
spec requires (and breaking id-keyed removal and list keys). -/
theorem C4_same_instant_id_collision :
    ((pickPdf 7 (pickPdf 7 [] [assetU]).1 [assetU]).1.map (fun p => p.id) =
      ["7-0", "7-0"]) ∧
    ¬ ((pickPdf 7 (pickPdf 7 [] [assetU]).1 [assetU]).1.map
        (fun p => p.id)).Nodup :=
  ⟨by decide, by decide⟩

/-! ### Claims about the byte codec -/

theorem takeWhile_ne_cons (c : Char) (l : List Char) (hc : c ≠ '=') :
    (c :: l).takeWhile (fun x => x ≠ '=') = c :: l.takeWhile (fun x => x ≠ '=') := by
  simp [List.takeWhile_cons, hc]

theorem takeWhile_pad_cons (l : List Char) :
    ('=' :: l).takeWhile (fun x => x ≠ '=') = [] := by
  simp [List.takeWhile_cons]

theorem takeWhile_ne_eq_self (s : List Char) (hs : '=' ∉ s) :
    s.takeWhile (fun x => x ≠ '=') = s := by
  induction s with
  | nil => rfl
  | cons a as ih =>
      have ha : a ≠ '=' := fun h => hs (h ▸ List.mem_cons_self a as)
      rw [takeWhile_ne_cons _ _ ha, ih (fun h => hs (List.mem_cons_of_mem a h))]

theorem takeWhile_ne_append_pad (s t : List Char) (hs : '=' ∉ s) :
    (s ++ '=' :: t).takeWhile (fun x => x ≠ '=') = s := by
  induction s with
  | nil => exact takeWhile_pad_cons t
  | cons a as ih =>
      have ha : a ≠ '=' := fun h => hs (h ▸ List.mem_cons_self a as)
      rw [List.cons_append, takeWhile_ne_cons _ _ ha,
        ih (fun h => hs (List.mem_cons_of_mem a h))]

theorem filterMap_eq_filterMap_filter (f : Char → Option Nat) (l : List Char) :
    l.filterMap f = (l.filter (fun c => (f c).isSome)).filterMap f := by
  induction l with
  | nil => rfl
  | cons c cs ih =>
      cases hc : f c with
      | none => simp [List.filterMap_cons, List.filter_cons, hc, ih]
      | some v => simp [List.filterMap_cons, List.filter_cons, hc, ih]

/-- Claim C9 counterexample: no malformed input makes the decode signal an
error — it always returns a byte buffer. `"!!!"` (no alphabet character)
decodes to the empty buffer; `"aGk=aGk="` (padding in the middle) is
silently truncated at the first `=`, yielding `[104, 105]`; and `"-Gk"`
(a character outside the base64 alphabet) is decoded, `-` being read as
sextet 62, yielding `[248, 105]`. -/
theorem C9_counterexample :
    base64ToUint8Array "!!!".toList = [] ∧
    base64ToUint8Array "aGk=aGk=".toList = [104, 105] ∧
    base64ToUint8Array "-Gk".toList = [248, 105] :=
  ⟨by decide, by decide, by decide⟩

/-- Claim C9 (amended): decoding never signals an error — every input,
malformed or not, yields a byte buffer. The input is truncated at the
first `=` (everything after it is silently discarded), and before that
point characters outside the decoder's alphabet (base64 plus the
URL-safe `-`/`_`, which decode as 62/63) are ignored: decoding
`s ++ '=' :: anything` with `=`-free `s` equals decoding `s`, and
decoding an `=`-free input equals decoding the subsequence of its
alphabet characters. -/
theorem C9_decode_lenient (s t : List Char) (hs : '=' ∉ s) :
    base64ToUint8Array (s ++ '=' :: t) = base64ToUint8Array s ∧
    base64ToUint8Array s =
      base64ToUint8Array (s.filter (fun c => (b64RevLookup c).isSome)) := by
  have hsf : '=' ∉ s.filter (fun c => (b64RevLookup c).isSome) :=
    fun hmem => hs (List.mem_of_mem_filter hmem)
  unfold base64ToUint8Array
  rw [takeWhile_ne_append_pad s t hs, takeWhile_ne_eq_self s hs,
    takeWhile_ne_eq_self _ hsf]
  exact ⟨rfl, congrArg _ (filterMap_eq_filterMap_filter b64RevLookup s)⟩

theorem C9_witness :
    base64ToUint8Array ("aGk".toList ++ '=' :: "aGk=".toList) =
      base64ToUint8Array "aGk".toList ∧
    base64ToUint8Array "aGk".toList =
      base64ToUint8Array
        ("aGk".toList.filter (fun c => (b64RevLookup c).isSome)) :=
  C9_decode_lenient "aGk".toList "aGk=".toList (by decide)

/-- Case analysis on a byte list three bytes at a time, matching the
base64 grouping. -/
theorem byteTriples_ind (P : List Nat → Prop) (h0 : P []) (h1 : ∀ a, P [a])
    (h2 : ∀ a b, P [a, b])
    (h3 : ∀ a b c rest, P rest → P (a :: b :: c :: rest)) :
    ∀ l, P l
  | [] => h0
  | [a] => h1 a
  | [a, b] => h2 a b
  | a :: b :: c :: rest => h3 a b c rest (byteTriples_ind P h0 h1 h2 h3 rest)

theorem b64RevLookup_b64Char {n : Nat} (h : n < 64) :
    b64RevLookup (b64Char n) = some n := by
  have hall : ∀ m : Fin 64, b64RevLookup (b64Char m.val) = some m.val := by decide
  exact hall ⟨n, h⟩

theorem b64Char_ne_pad {n : Nat} (h : n < 64) : b64Char n ≠ '=' := by
  have hall : ∀ m : Fin 64, b64Char m.val ≠ '=' := by decide
  exact hall ⟨n, h⟩

/-- Claim C2: for every byte buffer, including the empty one and buffers
using all 256 byte values, decoding the encoded text restores the
original buffer: `base64ToUint8Array (uint8ArrayToBase64 b) = b`. -/
theorem C2_codec_roundtrip : ∀ (b : List Nat), (∀ x ∈ b, x < 256) →
    base64ToUint8Array (uint8ArrayToBase64 b) = b := by
  intro b
  induction b using byteTriples_ind with
  | h0 => intro _; rfl
  | h1 a =>
      intro h
      have ha : a < 256 := h a (by simp)
      show b64DecodeSextets
        (((b64EncodeBytes [a]).takeWhile (fun x => x ≠ '=')).filterMap
          b64RevLookup) = [a]
      simp only [b64EncodeBytes]
      rw [takeWhile_ne_cons _ _ (b64Char_ne_pad (show a / 4 < 64 by omega)),
        takeWhile_ne_cons _ _ (b64Char_ne_pad (show a % 4 * 16 < 64 by omega)),
        takeWhile_pad_cons]
      simp only [List.filterMap_cons, List.filterMap_nil,
        b64RevLookup_b64Char (show a / 4 < 64 by omega),
        b64RevLookup_b64Char (show a % 4 * 16 < 64 by omega)]
      simp only [b64DecodeSextets, List.cons.injEq, and_true]
      omega
  | h2 a b =>
      intro h
      have ha : a < 256 := h a (by simp)
      have hb : b < 256 := h b (by simp)
      show b64DecodeSextets
        (((b64EncodeBytes [a, b]).takeWhile (fun x => x ≠ '=')).filterMap
          b64RevLookup) = [a, b]
      simp only [b64EncodeBytes]
      rw [takeWhile_ne_cons _ _ (b64Char_ne_pad (show a / 4 < 64 by omega)),
        takeWhile_ne_cons _ _
          (b64Char_ne_pad (show a % 4 * 16 + b / 16 < 64 by omega)),
        takeWhile_ne_cons _ _ (b64Char_ne_pad (show b % 16 * 4 < 64 by omega)),
        takeWhile_pad_cons]
      simp only [List.filterMap_cons, List.filterMap_nil,
        b64RevLookup_b64Char (show a / 4 < 64 by omega),
        b64RevLookup_b64Char (show a % 4 * 16 + b / 16 < 64 by omega),
        b64RevLookup_b64Char (show b % 16 * 4 < 64 by omega)]
      simp only [b64DecodeSextets, List.cons.injEq, and_true]
      omega
  | h3 a b c rest ih =>
      intro h
      have ha : a < 256 := h a (by simp)
      have hb : b < 256 := h b (by simp)
      have hc : c < 256 := h c (by simp)
      have hrest : b64DecodeSextets
          (((b64EncodeBytes rest).takeWhile (fun x => x ≠ '=')).filterMap
            b64RevLookup) = rest :=
        ih (fun x hx => h x (by simp [hx]))
      show b64DecodeSextets
        (((b64EncodeBytes (a :: b :: c :: rest)).takeWhile
            (fun x => x ≠ '=')).filterMap b64RevLookup) =
        a :: b :: c :: rest
      simp only [b64EncodeBytes]
      rw [takeWhile_ne_cons _ _ (b64Char_ne_pad (show a / 4 < 64 by omega)),
        takeWhile_ne_cons _ _
          (b64Char_ne_pad (show a % 4 * 16 + b / 16 < 64 by omega)),
        takeWhile_ne_cons _ _
          (b64Char_ne_pad (show b % 16 * 4 + c / 64 < 64 by omega)),
        takeWhile_ne_cons _ _ (b64Char_ne_pad (show c % 64 < 64 by omega))]
      simp only [List.filterMap_cons,
        b64RevLookup_b64Char (show a / 4 < 64 by omega),
        b64RevLookup_b64Char (show a % 4 * 16 + b / 16 < 64 by omega),
        b64RevLookup_b64Char (show b % 16 * 4 + c / 64 < 64 by omega),
        b64RevLookup_b64Char (show c % 64 < 64 by omega)]
      simp only [b64DecodeSextets, hrest, List.cons.injEq]
      refine ⟨by omega, by omega, by omega, trivial⟩

theorem C2_witness :
    base64ToUint8Array (uint8ArrayToBase64 [0, 255, 7, 128, 63]) =
      [0, 255, 7, 128, 63] :=
  C2_codec_roundtrip [0, 255, 7, 128, 63] (by decide)

/-! ### Claims about batch loading -/

/-- The items a fully successful batch contributes, in input order, with
batch indices starting at `i` (the spec-side description of what a
successful `pickPdf` loop pushes). -/
def expectedItems (now : Nat) : Nat → List AssetLoad → List PdfItem
  | _, [] => []
  | i, a :: rest =>
      mkItem now i a (a.result.toOption.getD 0) :: expectedItems now (i + 1) rest

theorem pickPdfLoop_ok (now : Nat) :
    ∀ (assets : List AssetLoad) (i : Nat), (∀ a ∈ assets, a.result.isOk = true) →
      pickPdfLoop now i assets = .ok (expectedItems now i assets) := by
  intro assets
  induction assets with
  | nil => intro i _; rfl
  | cons a rest ih =>
      intro i h
      have hok := h a (by simp)
      cases hres : a.result with
      | error e => rw [hres] at hok; simp [Except.isOk, Except.toBool] at hok
      | ok pages =>
          have hr := ih (i + 1) (fun x hx => h x (by simp [hx]))
          simp only [pickPdfLoop, expectedItems, hres, hr, Except.map,
            Except.toOption, Option.getD]

theorem pickPdfLoop_error (now : Nat) :
    ∀ (assets : List AssetLoad) (i : Nat), (∃ a ∈ assets, a.result.isOk = false) →
      ∃ e, pickPdfLoop now i assets = .error e := by
  intro assets
  induction assets with
  | nil =>
      intro i h
      rcases h with ⟨a, ha, _⟩
      exact absurd ha (List.not_mem_nil a)
  | cons a rest ih =>
      intro i h
      cases hres : a.result with
      | error e => exact ⟨e, by simp only [pickPdfLoop, hres]⟩
      | ok pages =>
          rcases h with ⟨x, hx, hbad⟩
          rcases List.mem_cons.mp hx with rfl | hx'
          · rw [hres] at hbad; simp [Except.isOk, Except.toBool] at hbad
          · rcases ih (i + 1) ⟨x, hx', hbad⟩ with ⟨e, he⟩
            exact ⟨e, by simp only [pickPdfLoop, hres, he, Except.map]⟩

/-- Claim C3 (amended): a load failure anywhere in the batch aborts the
entire batch addition — the session is left unchanged (items of the batch
that loaded successfully, before or after the failing one, are not added)
and an error is reported; only a batch in which every item loads is
appended, in input order. -/
theorem C3_batch_all_or_nothing (now : Nat) (prev : List PdfItem)
    (assets : List AssetLoad) :
    ((∃ a ∈ assets, a.result.isOk = false) →
      (pickPdf now prev assets).1 = prev ∧
      (pickPdf now prev assets).2.isSome = true) ∧
    ((∀ a ∈ assets, a.result.isOk = true) →
      pickPdf now prev assets = (prev ++ expectedItems now 0 assets, none)) := by
  constructor
  · intro h
    rcases pickPdfLoop_error now assets 0 h with ⟨e, he⟩
    unfold pickPdf
    rw [he]
    exact ⟨rfl, rfl⟩
  · intro h
    unfold pickPdf
    rw [pickPdfLoop_ok now assets 0 h]

/-- The load outcome of a well-formed 3-page asset. -/
def assetOk1 : AssetLoad :=
  { name := some "one.pdf".toList, uri := "u1", result := .ok 3 }

/-- The load outcome of a malformed asset: `PDFDocument.load` throws. -/
def assetBad : AssetLoad :=
  { name := some "two.pdf".toList, uri := "u2",
    result := .error "Failed to parse PDF document" }

/-- The load outcome of a well-formed 4-page asset. -/
def assetOk3 : AssetLoad :=
  { name := some "three.pdf".toList, uri := "u3", result := .ok 4 }

/-- Claim C3 counterexample: loading a batch of three where item 2 is
malformed adds nothing to the session — items 1 and 3, though they loaded
successfully, are absent afterwards, where the claim says both would be
added with their page counts. -/
theorem C3_counterexample :
    (pickPdf 7 [] [assetOk1, assetBad, assetOk3]).1 = [] ∧
    (pickPdf 7 [] [assetOk1, assetBad, assetOk3]).2 =
      some "Failed to parse PDF document" :=
  ⟨by decide, by decide⟩

theorem C3_witness :
    ((pickPdf 7 [] [assetOk1, assetBad]).1 = [] ∧
      (pickPdf 7 [] [assetOk1, assetBad]).2.isSome = true) ∧
    pickPdf 7 [] [assetOk1, assetOk3] =
      ([] ++ expectedItems 7 0 [assetOk1, assetOk3], none) :=
  ⟨(C3_batch_all_or_nothing 7 [] [assetOk1, assetBad]).1
      ⟨assetBad, List.mem_cons_of_mem _ (List.mem_cons_self _ _), by decide⟩,
   (C3_batch_all_or_nothing 7 [] [assetOk1, assetOk3]).2 (by decide)⟩

/-! ### Claims about merge assembly -/

theorem copyPages_getPageIndices {α : Type} (doc : List α) :
    copyPages doc (getPageIndices doc) = doc := by
  unfold copyPages getPageIndices
  induction doc with
  | nil => rfl
  | cons x xs ih =>
      rw [List.length_cons, List.range_succ_eq_map, List.filterMap_cons]
      simp only [List.get?_cons_zero]
      rw [List.filterMap_map]
      simp only [Function.comp_def, List.get?_cons_succ]
      exact congrArg (List.cons x) ih

theorem buildMergedPdf_eq_flatten {α : Type} (loadDoc : String → List α)
    (data : List PdfItem) :
    buildMergedPdf loadDoc data =
      (data.map (fun item => loadDoc item.uri)).flatten := by
  unfold buildMergedPdf
  have h : ∀ (l : List PdfItem) (init : List α),
      l.foldl (fun mergedPdf item =>
        mergedPdf ++
          copyPages (loadDoc item.uri) (getPageIndices (loadDoc item.uri))) init =
      init ++ (l.map (fun item => loadDoc item.uri)).flatten := by
    intro l
    induction l with
    | nil => intro init; simp
    | cons a as ih =>
        intro init
        rw [List.foldl_cons, ih, copyPages_getPageIndices, List.map_cons,
          List.flatten_cons, List.append_assoc]
  simpa using h data []

theorem flatten_get? {α : Type} :
    ∀ (docs : List (List α)) (i : Nat) (d : List α) (j : Nat),
      docs.get? i = some d → j < d.length →
      docs.flatten.get? (((docs.take i).map List.length).sum + j) = d.get? j := by
  intro docs
  induction docs with
  | nil => intro i d j h _; simp at h
  | cons x xs ih =>
      intro i d j hget hj
      cases i with
      | zero =>
          rw [List.get?_cons_zero] at hget
          injection hget with hxd
          subst hxd
          rw [List.take_zero, List.map_nil, List.sum_nil, List.flatten_cons,
            Nat.zero_add]
          exact List.get?_append hj
      | succ n =>
          rw [List.get?_cons_succ] at hget
          rw [List.take_succ_cons, List.map_cons, List.sum_cons, List.flatten_cons]
          rw [List.get?_append_right (by omega)]
          have harith : x.length + ((xs.take n).map List.length).sum + j - x.length =
              ((xs.take n).map List.length).sum + j := by omega
          rw [harith]
          exact ih n d j hget hj

/-- Claim C1: for an ordered session whose items' `pageCount`s match their
source documents (page counts `[p1, ..., pn]`), the assembled output has
exactly `p1 + ... + pn` pages, and page `(p1 + ... + p(i-1)) + j` of the
output is page `j` of item `i`'s source document — so every page of item
`i` precedes every page of item `i+1`, each item's pages keep their source
order, and page content is preserved. -/
theorem C1_assembly_page_law {α : Type} (loadDoc : String → List α)
    (data : List PdfItem)
    (hcount : ∀ item ∈ data, (loadDoc item.uri).length = item.pages) :
    (buildMergedPdf loadDoc data).length = totalPages data ∧
    (∀ (i : Nat) (item : PdfItem) (j : Nat),
      data.get? i = some item → j < item.pages →
      (buildMergedPdf loadDoc data).get? (totalPages (data.take i) + j) =
        (loadDoc item.uri).get? j) := by
  constructor
  · rw [buildMergedPdf_eq_flatten, List.length_flatten, List.map_map,
      totalPages_eq_sum]
    congr 1
    apply List.map_congr_left
    intro a ha
    exact hcount a ha
  · intro i item j hi hj
    rw [buildMergedPdf_eq_flatten]
    have hdi : (data.map (fun item => loadDoc item.uri)).get? i =
        some (loadDoc item.uri) := by
      rw [List.get?_map, hi]
      rfl
    have hji : j < (loadDoc item.uri).length := by
      rw [hcount item (List.get?_mem hi)]
      exact hj
    have hoff : totalPages (data.take i) =
        (((data.map (fun item => loadDoc item.uri)).take i).map List.length).sum := by
      rw [totalPages_eq_sum, ← List.map_take, List.map_map]
      congr 1
      apply List.map_congr_left
      intro a ha
      exact (hcount a (List.mem_of_mem_take ha)).symm
    rw [hoff]
    exact flatten_get? _ i _ j hdi hji

/-- The documents the sample uris resolve to: `itemA.uri = "a"` holds a
10-page document, every other uri a 5-page one. -/
def docW : String → List Nat :=
  fun u => if u = "a" then List.range 10 else List.range 5

theorem C1_witness :
    (buildMergedPdf docW [itemA, itemB]).length = totalPages [itemA, itemB] ∧
    (buildMergedPdf docW [itemA, itemB]).get?
        (totalPages ([itemA, itemB].take 1) + 0) = (docW itemB.uri).get? 0 :=
  ⟨(C1_assembly_page_law docW [itemA, itemB] (by decide)).1,
   (C1_assembly_page_law docW [itemA, itemB] (by decide)).2 1 itemB 0 (by decide)
      (by decide)⟩
